import Mathlib

/-!
Verification of `fetch_versions.py`, a script that lists the repositories of a
GitHub organization, fetches each repository's tags, selects the highest
`vINTEGER` tag, and writes a sorted manifest.

The shallow embedding below mirrors the Python source:

* network page responses are modelled as explicit sequences of already-parsed
  page bodies (a JSON list of items, a JSON error object with a `message`
  field, or a transport/parse failure that raises);
* each paginating function consumes that sequence exactly as the Python
  `while True` loop consumes successive `page` indices, and additionally
  reports the number of page requests issued and the diagnostics printed;
* `Option` models a run that would request more pages than the prepared
  response sequence provides (never the case in the theorems below);
* `Except` models Python exception propagation: `Except.error` is a raised
  exception (`subprocess.run(..., check=True)` failing or `json.loads`
  failing), `Except.ok` is a normal return;
* Python's stable `list.sort` is modelled by `List.insertionSort`, which is
  stable for a total preorder, hence produces the same list;
* Python `str` operations used by the script (`strip`, `lower`,
  `startswith`, code-point comparison) are modelled on `List Char`
  for their ASCII behaviour, which covers every string the claims involve.
-/

deriving instance DecidableEq for Except

namespace FetchVersions

/-- Whitespace as recognised by Python's `str.strip()` (ASCII range). -/
def pyIsSpace (c : Char) : Bool :=
  c = ' ' || c = '\t' || c = '\n' || c = '\r' || c = '\x0b' || c = '\x0c'

/-- Python `str.strip()`: remove leading and trailing whitespace. -/
def pyStrip (s : String) : String :=
  String.mk (((s.toList.dropWhile pyIsSpace).reverse.dropWhile pyIsSpace).reverse)

/-- An ASCII decimal digit (code points 48–57, i.e. `'0'`–`'9'`). -/
def isDigitC (c : Char) : Bool := 48 ≤ c.toNat && c.toNat ≤ 57

/-- Starting code points of the Unicode `Nd` (decimal digit) runs.  Every
`Nd` character sits in a block of ten consecutive code points whose first
element has digit value 0, so membership in `Nd` and the digit value of a
character are both determined by this table.  ASCII `0030` is listed
first; the remaining runs are the `Nd` blocks of the Unicode database
(Arabic-Indic `0660`, Devanagari `0966`, … , fullwidth `FF10`, and the
supplementary-plane scripts). -/
def ndRangeStarts : List Nat :=
  [0x0030, 0x0660, 0x06F0, 0x07C0, 0x0966, 0x09E6, 0x0A66, 0x0AE6, 0x0B66,
   0x0BE6, 0x0C66, 0x0CE6, 0x0D66, 0x0DE6, 0x0E50, 0x0ED0, 0x0F20, 0x1040,
   0x1090, 0x17E0, 0x1810, 0x1946, 0x19D0, 0x1A80, 0x1A90, 0x1B50, 0x1BB0,
   0x1C40, 0x1C50, 0xA620, 0xA8D0, 0xA900, 0xA9D0, 0xA9F0, 0xAA50, 0xABF0,
   0xFF10, 0x104A0, 0x10D30, 0x11066, 0x110F0, 0x11136, 0x111D0, 0x112F0,
   0x11450, 0x114D0, 0x11650, 0x116C0, 0x11730, 0x118E0, 0x11950, 0x11C50,
   0x11D50, 0x11DA0, 0x11F50, 0x16A60, 0x16AC0, 0x16B50, 0x1D7CE, 0x1D7D8,
   0x1D7E2, 0x1D7EC, 0x1D7F6, 0x1E140, 0x1E2F0, 0x1E4F0, 0x1E950, 0x1FBF0]

/-- The start of the `Nd` run containing code point `n`, if any. -/
def ndStart? (n : Nat) : Option Nat :=
  ndRangeStarts.find? (fun s => s ≤ n && n ≤ s + 9)

/-- A decimal digit as matched by Python's `str`-pattern `\d`: any Unicode
`Nd` character, not only ASCII `0`–`9`. -/
def isDigitNd (c : Char) : Bool := (ndStart? c.toNat).isSome

/-- Numeric value of a digit character, as used by Python `int()`: the
offset of the character within its `Nd` run. -/
def charVal (c : Char) : Nat := c.toNat - (ndStart? c.toNat).getD c.toNat

/-- Python `int(...)` applied to a string of decimal digits. -/
def digitsToNat (ds : List Char) : Nat :=
  ds.foldl (fun a c => a * 10 + charVal c) 0

/-- A digit group without superfluous leading zeros: either the single digit
`0` or a group that does not start with `0`. -/
def canonicalDigits (ds : List Char) : Prop := ds = ['0'] ∨ ds.head? ≠ some '0'

/-- The portion of the input that `(\d+)$` must cover once `v` is consumed:
Python's `$` matches at the end of the string or just before a newline at
the end of the string, so a single trailing newline is not part of the
required digit run. -/
def vCore (rest : List Char) : List Char :=
  if rest.getLast? = some '\n' then rest.dropLast else rest

/-- `^v(\d+)$` on a character list: `v` followed by one or more decimal
digits (Unicode `Nd`, as Python's `\d` matches). -/
def reMatchVL : List Char → Option (List Char)
  | [] => none
  | c :: rest =>
    if c = 'v' then
      if (vCore rest).isEmpty then none
      else if (vCore rest).all isDigitNd then some (vCore rest) else none
    else none

/-- `re.compile(r"^v(\d+)$").match s` (lines 91/95 of `fetch_versions.py`):
returns the captured digit group when the string is `v` followed by one or
more digits (with Python's `$` semantics for a single trailing newline,
see `vCore`). -/
def reMatchV (s : String) : Option (List Char) := reMatchVL s.toList

/-- Python `str.lower()` on an ASCII letter. -/
def lowerChar (c : Char) : Char :=
  if 65 ≤ c.toNat ∧ c.toNat ≤ 90 then Char.ofNat (c.toNat + 32) else c

/-- Python `str.lower()` (ASCII behaviour). -/
def pyLower (s : String) : String := String.mk (s.toList.map lowerChar)

/-- Python `str.startswith`. -/
def pyStartswith (s p : String) : Bool := p.toList.isPrefixOf s.toList

/-- Python string `<=` : lexicographic comparison of code points. -/
def listLE : List Char → List Char → Bool
  | [], _ => true
  | _ :: _, [] => false
  | c :: cs, d :: ds =>
    if c.toNat < d.toNat then true
    else if d.toNat < c.toNat then false
    else listLE cs ds

/-- Body of the loop at lines 94–97: match the stripped tag against the
version pattern and keep `(int(match.group(1)), tag.strip())`. -/
def versionKey (tag : String) : Option (Nat × String) :=
  (reMatchV (pyStrip tag)).map (fun ds => (digitsToNat ds, pyStrip tag))

/-- Ordering used by `version_tags.sort(reverse=True, key=lambda x: x[0])`:
`a` may precede `b` iff `b`'s numeric key is at most `a`'s. -/
def versionGE (a b : Nat × String) : Prop := b.1 ≤ a.1

instance : DecidableRel versionGE := fun a b => Nat.decLe b.1 a.1

instance : IsTotal (Nat × String) versionGE := ⟨fun a b => Nat.le_total b.1 a.1⟩

instance : IsTrans (Nat × String) versionGE := ⟨fun _ _ _ h h' => Nat.le_trans h' h⟩

/-- `get_latest_version_tag` (lines 88–104): filter the tags to those whose
stripped form matches `^v(\d+)$`, sort the `(value, stripped tag)` pairs by
value descending (Python's sort is stable; `insertionSort` with the total
preorder `versionGE` is the same stable sort) and return the stripped tag of
the first pair, or `None` when no tag qualifies. -/
def get_latest_version_tag (tags : List String) : Option String :=
  let version_tags := tags.filterMap versionKey
  if version_tags = [] then none
  else ((version_tags.insertionSort versionGE).head?).map Prod.snd

/-- A repository record; only its `name` field is ever read by the script. -/
structure Repo where
  name : String
deriving DecidableEq, Repr

/-- One page body received while listing repositories: either a JSON list of
repository records, or a transport/parse failure (raising
`CalledProcessError` / `JSONDecodeError`). -/
inductive RepoPage where
  | items (repos : List Repo)
  | fail (msg : String)
deriving DecidableEq, Repr

/-- One page body received while listing tags: a JSON list of tag records
(modelled by their `name` fields, the only field read), a JSON error object
with a `message` field, or a transport/parse failure that raises. -/
inductive TagPage where
  | items (names : List String)
  | errObj (message : String)
  | fail (msg : String)
deriving DecidableEq, Repr

/-- Observable outcome of a normal `fetch_tags` return: the tag names
accumulated, the number of page requests issued, and the diagnostics printed
to stderr. -/
structure TagsResult where
  tags : List String
  requests : Nat
  diags : List String
deriving DecidableEq, Repr

/-- `fetch_repos` (lines 23–50) run against a prepared sequence of page
bodies for pages 1, 2, …  The loop requests a page, breaks on an empty
page, appends the page, breaks when the page is shorter than
`per_page = 100`, and otherwise continues with the next page.  The result
pairs the accumulated repositories with the number of page requests issued;
`Except.error` is a raised transport/parse exception, `none` means the loop
would request a page beyond the prepared sequence. -/
def fetch_repos : List RepoPage → Option (Except String (List Repo × Nat))
  | [] => none
  | RepoPage.fail e :: _ => some (Except.error e)
  | RepoPage.items page_repos :: rest =>
    if page_repos.isEmpty then some (Except.ok ([], 1))
    else if page_repos.length < 100 then some (Except.ok (page_repos, 1))
    else
      match fetch_repos rest with
      | none => none
      | some (Except.error e) => some (Except.error e)
      | some (Except.ok (repos, n)) => some (Except.ok (page_repos ++ repos, n + 1))

/-- `fetch_tags` (lines 53–85) run against a prepared sequence of page
bodies.  Identical pagination to `fetch_repos`, except that a JSON error
object carrying a `message` field prints a diagnostic and breaks the loop,
returning the tags accumulated so far. -/
def fetch_tags (repo_name : String) : List TagPage → Option (Except String TagsResult)
  | [] => none
  | TagPage.fail e :: _ => some (Except.error e)
  | TagPage.errObj msg :: _ =>
    some (Except.ok ⟨[], 1, ["  API error for " ++ repo_name ++ ": " ++ msg]⟩)
  | TagPage.items page_tags :: rest =>
    if page_tags.isEmpty then some (Except.ok ⟨[], 1, []⟩)
    else if page_tags.length < 100 then some (Except.ok ⟨page_tags, 1, []⟩)
    else
      match fetch_tags repo_name rest with
      | none => none
      | some (Except.error e) => some (Except.error e)
      | some (Except.ok r) => some (Except.ok ⟨page_tags ++ r.tags, r.requests + 1, r.diags⟩)

/-- Module constant `ORG_NAME = "actions"` (line 18). -/
def ORG_NAME : String := "actions"

/-- Module constant `REPO_PREFIX = "setup-"` (line 20), the repository-name
filter applied in `main`. -/
def REPO_PREF : String := "setup-"

/-- Case-insensitive name order used by `versions.sort(key=lambda x:
x[0].lower())` (line 133): compare the lowercased repository names by code
points. -/
def nameLE (a b : String × String) : Prop :=
  listLE (pyLower a.1).toList (pyLower b.1).toList = true

instance : DecidableRel nameLE := fun a b =>
  instDecidableEqBool (listLE (pyLower a.1).toList (pyLower b.1).toList) true

/-- The per-repository loop of `main` (lines 119–130): fetch the tags of
each repository in turn (each repository's page responses are given by
`tagPages`), select its latest version tag, and collect the
`(repo_name, latest_tag)` pairs of the repositories that have one.  A raised
exception inside `fetch_tags` propagates. -/
def collectVersions (tagPages : String → List TagPage) :
    List Repo → Option (Except String (List (String × String)))
  | [] => some (Except.ok [])
  | r :: rs =>
    match fetch_tags r.name (tagPages r.name) with
    | none => none
    | some (Except.error e) => some (Except.error e)
    | some (Except.ok tr) =>
      match get_latest_version_tag tr.tags with
      | some latest_tag =>
        match collectVersions tagPages rs with
        | none => none
        | some (Except.error e) => some (Except.error e)
        | some (Except.ok vs) => some (Except.ok ((r.name, latest_tag) :: vs))
      | none => collectVersions tagPages rs

/-- `main` (lines 107–133) up to, but not including, serialization: list the
repositories (a raised exception aborts the run), filter them by the
`REPO_PREFIX` name filter, collect the `(repo_name, latest_tag)` pairs, and
sort them case-insensitively by repository name (Python's stable sort,
modelled by the stable `insertionSort` under the total preorder `nameLE`). -/
def manifest_entries (repoPages : List RepoPage) (tagPages : String → List TagPage) :
    Option (Except String (List (String × String))) :=
  match fetch_repos repoPages with
  | none => none
  | some (Except.error e) => some (Except.error e)
  | some (Except.ok (repos, _)) =>
    match collectVersions tagPages
        (repos.filter (fun r => pyStartswith r.name REPO_PREF)) with
    | none => none
    | some (Except.error e) => some (Except.error e)
    | some (Except.ok versions) => some (Except.ok (versions.insertionSort nameLE))

/-- One line written to `versions.txt` (line 138):
`f"{ORG_NAME}/{repo_name}@{tag}"`. -/
def formatLine (v : String × String) : String :=
  ORG_NAME ++ "/" ++ v.1 ++ "@" ++ v.2

/-- `main` (lines 107–140): `Except.ok lines` means the run completed and
overwrote `versions.txt` with exactly `lines`; `Except.error` means an
exception propagated out of `main` before the file was opened for writing
(the write at lines 136–138 is the last step of the run). -/
def main (repoPages : List RepoPage) (tagPages : String → List TagPage) :
    Option (Except String (List String)) :=
  (manifest_entries repoPages tagPages).map (Except.map (List.map formatLine))

/-! ### Helper lemmas -/

theorem listLE_cons_iff {c d : Char} {cs ds : List Char} :
    listLE (c :: cs) (d :: ds) = true ↔
      c.toNat < d.toNat ∨ (c.toNat = d.toNat ∧ listLE cs ds = true) := by
  simp only [listLE]
  split
  · next h1 => simp; omega
  · next h1 =>
    split
    · next h2 => simp; omega
    · next h2 =>
      constructor
      · intro h
        exact Or.inr ⟨by omega, h⟩
      · rintro (h | ⟨_, h⟩)
        · omega
        · exact h

theorem listLE_total : ∀ xs ys : List Char, listLE xs ys = true ∨ listLE ys xs = true
  | [], _ => Or.inl rfl
  | _ :: _, [] => Or.inr rfl
  | c :: cs, d :: ds => by
    rcases Nat.lt_trichotomy c.toNat d.toNat with h | h | h
    · exact Or.inl (listLE_cons_iff.mpr (Or.inl h))
    · rcases listLE_total cs ds with h' | h'
      · exact Or.inl (listLE_cons_iff.mpr (Or.inr ⟨h, h'⟩))
      · exact Or.inr (listLE_cons_iff.mpr (Or.inr ⟨h.symm, h'⟩))
    · exact Or.inr (listLE_cons_iff.mpr (Or.inl h))

theorem listLE_trans : ∀ xs ys zs : List Char,
    listLE xs ys = true → listLE ys zs = true → listLE xs zs = true
  | [], _, _, _, _ => rfl
  | _ :: _, [], _, h, _ => by simp [listLE] at h
  | _ :: _, _ :: _, [], _, h => by simp [listLE] at h
  | c :: cs, d :: ds, e :: es, h1, h2 => by
    rcases listLE_cons_iff.mp h1 with g1 | ⟨g1, g1'⟩ <;>
      rcases listLE_cons_iff.mp h2 with g2 | ⟨g2, g2'⟩
    · exact listLE_cons_iff.mpr (Or.inl (by omega))
    · exact listLE_cons_iff.mpr (Or.inl (by omega))
    · exact listLE_cons_iff.mpr (Or.inl (by omega))
    · exact listLE_cons_iff.mpr (Or.inr ⟨by omega, listLE_trans cs ds es g1' g2'⟩)

instance : IsTotal (String × String) nameLE :=
  ⟨fun a b => listLE_total (pyLower a.1).toList (pyLower b.1).toList⟩

instance : IsTrans (String × String) nameLE :=
  ⟨fun a b c => listLE_trans (pyLower a.1).toList (pyLower b.1).toList (pyLower c.1).toList⟩

/-- Inversion of a successful pattern match on a string that does not end in
a newline: the whole string is `v` followed by the captured digits. -/
theorem reMatchV_eq_some {s : String} {ds : List Char}
    (hnl : s.toList.getLast? ≠ some '\n')
    (h : reMatchV s = some ds) :
    s.toList = 'v' :: ds ∧ ds ≠ [] ∧ ds.all isDigitNd = true := by
  unfold reMatchV at h
  cases hs : s.toList with
  | nil => rw [hs] at h; simp [reMatchVL] at h
  | cons c rest =>
    rw [hs] at h
    rw [hs] at hnl
    simp only [reMatchVL] at h
    by_cases hc : c = 'v'
    · subst hc
      rw [if_pos rfl] at h
      have hlast : rest.getLast? ≠ some '\n' := by
        cases rest with
        | nil => simp
        | cons r0 rs => simpa [List.getLast?_cons_cons] using hnl
      have hcore : vCore rest = rest := if_neg hlast
      rw [hcore] at h
      by_cases he : rest.isEmpty
      · rw [if_pos he] at h; simp at h
      · rw [if_neg he] at h
        by_cases hd : rest.all isDigitNd
        · rw [if_pos hd] at h
          have hds : rest = ds := by injection h
          subst hds
          exact ⟨rfl, fun hn => he (by rw [hn]; rfl), hd⟩
        · rw [if_neg hd] at h; simp at h
    · rw [if_neg hc] at h; simp at h

theorem get_latest_isSome {tags : List String} {t : String}
    (ht : t ∈ tags) (hm : (reMatchV (pyStrip t)).isSome) :
    ∃ t', get_latest_version_tag tags = some t' := by
  obtain ⟨ds, hds⟩ := Option.isSome_iff_exists.mp hm
  have hk : versionKey t = some (digitsToNat ds, pyStrip t) := by
    simp [versionKey, hds]
  have hmem : (digitsToNat ds, pyStrip t) ∈ tags.filterMap versionKey :=
    List.mem_filterMap.mpr ⟨t, ht, hk⟩
  have hne : tags.filterMap versionKey ≠ [] := List.ne_nil_of_mem hmem
  unfold get_latest_version_tag
  rw [if_neg hne]
  cases hsort : (tags.filterMap versionKey).insertionSort versionGE with
  | nil =>
    exfalso
    have hp := List.perm_insertionSort versionGE (tags.filterMap versionKey)
    rw [hsort] at hp
    exact hne hp.symm.eq_nil
  | cons x xs => exact ⟨x.2, by simp⟩

/-- Characterization of a successful `get_latest_version_tag`: the result is
the stripped form of some input tag that matches the pattern, and its
numeric value is maximal among all matching (stripped) input tags. -/
theorem get_latest_eq_some {tags : List String} {t : String}
    (h : get_latest_version_tag tags = some t) :
    ∃ x ∈ tags, ∃ ds, reMatchV (pyStrip x) = some ds ∧ t = pyStrip x ∧
      ∀ u ∈ tags, ∀ ds', reMatchV (pyStrip u) = some ds' →
        digitsToNat ds' ≤ digitsToNat ds := by
  unfold get_latest_version_tag at h
  by_cases hne : tags.filterMap versionKey = []
  · rw [if_pos hne] at h; simp at h
  · rw [if_neg hne] at h
    cases hsort : (tags.filterMap versionKey).insertionSort versionGE with
    | nil => rw [hsort] at h; simp at h
    | cons x xs =>
      rw [hsort] at h
      simp only [List.head?_cons] at h
      have ht : x.2 = t := by simpa using h
      have hxmem : x ∈ tags.filterMap versionKey := by
        have : x ∈ (tags.filterMap versionKey).insertionSort versionGE := by
          rw [hsort]; exact List.mem_cons_self x xs
        exact (List.mem_insertionSort versionGE).mp this
      obtain ⟨a, ha, hka⟩ := List.mem_filterMap.mp hxmem
      obtain ⟨ds, hds, hpair⟩ : ∃ ds, reMatchV (pyStrip a) = some ds ∧
          x = (digitsToNat ds, pyStrip a) := by
        unfold versionKey at hka
        cases hr : reMatchV (pyStrip a) with
        | none => rw [hr] at hka; simp at hka
        | some ds => rw [hr] at hka; simp at hka; exact ⟨ds, rfl, hka.symm⟩
      refine ⟨a, ha, ds, hds, ?_, ?_⟩
      · rw [← ht, hpair]
      · intro u hu ds' hds'
        have hku : versionKey u = some (digitsToNat ds', pyStrip u) := by
          simp [versionKey, hds']
        have humem : (digitsToNat ds', pyStrip u) ∈ tags.filterMap versionKey :=
          List.mem_filterMap.mpr ⟨u, hu, hku⟩
        have husort : (digitsToNat ds', pyStrip u) ∈ x :: xs := by
          rw [← hsort]
          exact (List.mem_insertionSort versionGE).mpr humem
        have hsorted : List.Sorted versionGE (x :: xs) := by
          rw [← hsort]; exact List.sorted_insertionSort versionGE _
        rcases List.mem_cons.mp husort with heq | hmem'
        · have : digitsToNat ds' = x.1 := by rw [← heq]
          rw [this, hpair]
        · have := List.rel_of_sorted_cons hsorted _ hmem'
          have hle : (digitsToNat ds', pyStrip u).1 ≤ x.1 := this
          simpa [hpair] using hle

theorem digitsToNat_eq_ofDigits (ds : List Char) :
    digitsToNat ds = Nat.ofDigits 10 ((ds.map charVal).reverse) := by
  induction ds using List.reverseRecOn with
  | nil => simp [digitsToNat, Nat.ofDigits_nil]
  | append_singleton l c ih =>
    have h1 : digitsToNat (l ++ [c]) = digitsToNat l * 10 + charVal c := by
      simp [digitsToNat, List.foldl_append]
    have h2 : ((l ++ [c]).map charVal).reverse = charVal c :: (l.map charVal).reverse := by
      simp
    rw [h1, h2, Nat.ofDigits_cons, ih]
    omega

theorem ndStart?_ascii {n : Nat} (h1 : 48 ≤ n) (h2 : n ≤ 57) : ndStart? n = some 48 := by
  unfold ndStart? ndRangeStarts
  exact List.find?_cons_of_pos _ (by simp; omega)

/-- On ASCII digits, `int()`'s per-character value is the usual one. -/
theorem charVal_ascii {c : Char} (h : isDigitC c = true) : charVal c = c.toNat - 48 := by
  simp only [isDigitC, Bool.and_eq_true, decide_eq_true_eq] at h
  simp only [charVal, ndStart?_ascii h.1 h.2, Option.getD_some]

theorem charVal_lt_ten {c : Char} (h : isDigitC c = true) : charVal c < 10 := by
  rw [charVal_ascii h]
  simp only [isDigitC, Bool.and_eq_true, decide_eq_true_eq] at h
  omega

theorem charVal_eq_of_digit {c d : Char} (hc : isDigitC c = true) (hd : isDigitC d = true)
    (h : charVal c = charVal d) : c = d := by
  rw [charVal_ascii hc, charVal_ascii hd] at h
  simp only [isDigitC, Bool.and_eq_true, decide_eq_true_eq] at hc hd
  exact Char.ext (UInt32.ext (show c.toNat = d.toNat by omega))

theorem map_charVal_inj : ∀ {ds1 ds2 : List Char},
    ds1.all isDigitC = true → ds2.all isDigitC = true →
    ds1.map charVal = ds2.map charVal → ds1 = ds2
  | [], [], _, _, _ => rfl
  | [], _ :: _, _, _, h => by simp at h
  | _ :: _, [], _, _, h => by simp at h
  | c :: cs, d :: ds, h1, h2, h => by
    simp only [List.all_cons, Bool.and_eq_true] at h1 h2
    simp only [List.map_cons, List.cons.injEq] at h
    rw [charVal_eq_of_digit h1.1 h2.1 h.1, map_charVal_inj h1.2 h2.2 h.2]

/-- For a nonempty all-digit group with a nonzero leading digit, base-10
digit extraction inverts `digitsToNat`. -/
theorem digits_digitsToNat {ds : List Char} (hall : ds.all isDigitC = true)
    (hne : ds ≠ []) (hz : ds.head? ≠ some '0') :
    Nat.digits 10 (digitsToNat ds) = (ds.map charVal).reverse := by
  rw [digitsToNat_eq_ofDigits]
  apply Nat.digits_ofDigits 10 (by norm_num)
  · intro l hl
    rw [List.mem_reverse, List.mem_map] at hl
    obtain ⟨c, hc, rfl⟩ := hl
    exact charVal_lt_ten (by
      rw [List.all_eq_true] at hall
      exact hall c hc)
  · intro hLne
    cases ds with
    | nil => exact absurd rfl hne
    | cons d rest =>
      have hd : isDigitC d = true := by
        rw [List.all_eq_true] at hall
        exact hall d (List.mem_cons_self d rest)
      have hd0 : d ≠ '0' := fun hcontra => hz (by rw [hcontra]; rfl)
      have hlast : ((d :: rest).map charVal).reverse.getLast hLne = charVal d := by
        have h1 : some (((d :: rest).map charVal).reverse.getLast hLne)
            = some (charVal d) := by
          rw [← List.getLast?_eq_getLast _ hLne, List.getLast?_reverse]
          simp
        exact Option.some.inj h1
      rw [hlast, charVal_ascii hd]
      simp only [isDigitC, Bool.and_eq_true, decide_eq_true_eq] at hd
      have : d.toNat ≠ 48 := by
        intro hcontra
        exact hd0 (Char.ext (UInt32.ext (show d.toNat = Char.toNat '0' by
          rw [hcontra]; rfl)))
      omega

theorem digitsToNat_pos {ds : List Char} (hall : ds.all isDigitC = true)
    (hne : ds ≠ []) (hz : ds.head? ≠ some '0') : digitsToNat ds ≠ 0 := by
  intro h0
  have hd := digits_digitsToNat hall hne hz
  rw [h0] at hd
  simp only [Nat.digits_zero] at hd
  have : (ds.map charVal).reverse ≠ [] := by
    simp [hne]
  exact this hd.symm

/-- `digitsToNat` is injective on canonical all-digit groups. -/
theorem digitsToNat_inj {ds1 ds2 : List Char}
    (h1 : ds1.all isDigitC = true) (h2 : ds2.all isDigitC = true)
    (n1 : ds1 ≠ []) (n2 : ds2 ≠ [])
    (c1 : canonicalDigits ds1) (c2 : canonicalDigits ds2)
    (hv : digitsToNat ds1 = digitsToNat ds2) : ds1 = ds2 := by
  rcases c1 with hz1 | hz1 <;> rcases c2 with hz2 | hz2
  · rw [hz1, hz2]
  · exfalso
    subst hz1
    have : digitsToNat ['0'] = 0 := by decide
    exact digitsToNat_pos h2 n2 hz2 (by rw [← hv, this])
  · exfalso
    subst hz2
    have : digitsToNat ['0'] = 0 := by decide
    exact digitsToNat_pos h1 n1 hz1 (by rw [hv, this])
  · have hd1 := digits_digitsToNat h1 n1 hz1
    have hd2 := digits_digitsToNat h2 n2 hz2
    rw [hv] at hd1
    rw [hd2] at hd1
    have := List.reverse_injective hd1
    exact (map_charVal_inj h2 h1 this).symm

theorem fetch_repos_short {a : List Repo} (rest : List RepoPage) (h : a.length < 100) :
    fetch_repos (RepoPage.items a :: rest) = some (Except.ok (a, 1)) := by
  by_cases he : a.isEmpty
  · have ha : a = [] := by
      cases a with
      | nil => rfl
      | cons x xs => simp [List.isEmpty] at he
    subst ha
    simp [fetch_repos]
  · simp [fetch_repos, he, h]

theorem fetch_repos_full_ok {a : List Repo} {rest : List RepoPage} {repos' : List Repo}
    {n' : Nat} (ha : ¬ a.length < 100)
    (hrec : fetch_repos rest = some (Except.ok (repos', n'))) :
    fetch_repos (RepoPage.items a :: rest) = some (Except.ok (a ++ repos', n' + 1)) := by
  have he : a.isEmpty = false := by
    cases a with
    | nil => simp at ha
    | cons x xs => rfl
  simp only [fetch_repos, he, Bool.false_eq_true, if_false, if_neg ha]
  rw [hrec]

theorem fetch_tags_short {name : String} {a : List String} (rest : List TagPage)
    (h : a.length < 100) :
    fetch_tags name (TagPage.items a :: rest) = some (Except.ok ⟨a, 1, []⟩) := by
  by_cases he : a.isEmpty
  · have ha : a = [] := by
      cases a with
      | nil => rfl
      | cons x xs => simp [List.isEmpty] at he
    subst ha
    simp [fetch_tags]
  · simp [fetch_tags, he, h]

theorem fetch_tags_full_ok {nm : String} {a : List String} {rest : List TagPage}
    {r : TagsResult} (ha : ¬ a.length < 100)
    (hrec : fetch_tags nm rest = some (Except.ok r)) :
    fetch_tags nm (TagPage.items a :: rest)
      = some (Except.ok ⟨a ++ r.tags, r.requests + 1, r.diags⟩) := by
  have he : a.isEmpty = false := by
    cases a with
    | nil => simp at ha
    | cons x xs => rfl
  simp only [fetch_tags, he, Bool.false_eq_true, if_false, if_neg ha]
  rw [hrec]

/-- The repositories returned by a completed `fetch_repos` run are exactly
the concatenation of the page bodies it consumed, in page order — no
deduplication takes place. -/
theorem fetch_repos_eq_flatten : ∀ (pages : List RepoPage) (repos : List Repo) (n : Nat),
    fetch_repos pages = some (Except.ok (repos, n)) →
    ∃ ps : List (List Repo), pages.take n = ps.map RepoPage.items ∧ repos = ps.flatten
  | [], repos, n, h => by simp [fetch_repos] at h
  | RepoPage.fail e :: rest, repos, n, h => by simp [fetch_repos] at h
  | RepoPage.items p :: rest, repos, n, h => by
    by_cases hl : p.length < 100
    · rw [fetch_repos_short rest hl] at h
      simp only [Option.some.injEq, Except.ok.injEq, Prod.mk.injEq] at h
      obtain ⟨h1, h2⟩ := h
      subst h1
      subst h2
      exact ⟨[p], by simp, by simp⟩
    · have he : p.isEmpty = false := by
        cases p with
        | nil => simp at hl
        | cons x xs => rfl
      simp only [fetch_repos, he, Bool.false_eq_true, if_false, if_neg hl] at h
      split at h
      · exact absurd h (by simp)
      · exact absurd h (by simp)
      · next repos' n' heq =>
        simp only [Option.some.injEq, Except.ok.injEq, Prod.mk.injEq] at h
        obtain ⟨h1, h2⟩ := h
        obtain ⟨ps', hta, hfl⟩ := fetch_repos_eq_flatten rest repos' n' heq
        refine ⟨p :: ps', ?_, ?_⟩
        · rw [← h2]
          simpa using hta
        · rw [← h1, hfl]
          simp

/-- The repository names of the collected `(name, tag)` pairs form a
sublist of the processed repository names: at most one pair per processed
repository, in processing order. -/
theorem collectVersions_sublist :
    ∀ (tagPages : String → List TagPage) (rs : List Repo) (vs : List (String × String)),
    collectVersions tagPages rs = some (Except.ok vs) →
    List.Sublist (vs.map Prod.fst) (rs.map Repo.name)
  | _, [], vs, h => by
    simp only [collectVersions, Option.some.injEq, Except.ok.injEq] at h
    subst h
    simp
  | tagPages, r :: rs, vs, h => by
    simp only [collectVersions] at h
    split at h
    · exact absurd h (by simp)
    · exact absurd h (by simp)
    · next tr heq =>
      split at h
      · next latest hlatest =>
        split at h
        · exact absurd h (by simp)
        · exact absurd h (by simp)
        · next vs' heq' =>
          simp only [Option.some.injEq, Except.ok.injEq] at h
          subst h
          simpa using List.Sublist.cons₂ r.name
            (collectVersions_sublist tagPages rs vs' heq')
      · next hlatest =>
        exact List.Sublist.cons r.name (collectVersions_sublist tagPages rs vs h)

/-! ### The claims -/

/-- **C1, counterexample.**  The claim quantifies over every tag list
containing at least one tag that matches `^v\d+$` and asserts the result is
the matching tag of largest value.  In `["v1", "v10 "]` the only tag
matching the pattern is `"v1"` (the trailing space makes `"v10 "` a
non-match), yet `get_latest_version_tag` returns `"v10"`, which is not an
element of the list at all: the code strips each tag before matching. -/
theorem claim_C1_counterexample :
    (∀ t ∈ ["v1", "v10 "], reMatchV t ≠ none → t = "v1") ∧
    get_latest_version_tag ["v1", "v10 "] = some "v10" ∧
    ("v10" : String) ≠ "v1" ∧ ("v10" : String) ∉ (["v1", "v10 "] : List String) := by
  refine ⟨?_, by decide, by decide, by decide⟩
  decide

/-- **C1, amended.**  For every list of tag strings containing at least one
tag whose whitespace-stripped form matches `^v(\d+)$`, the Version Selector
returns the stripped form of an input tag whose captured digits, parsed as
an unsigned integer, are maximal among all (stripped) matching input tags —
comparison is by integer value, not lexicographic; in particular
`["v9", "v10", "v2", "v1"]` yields `"v10"`. -/
theorem claim_C1 :
    (∀ tags : List String, (∃ t ∈ tags, (reMatchV (pyStrip t)).isSome) →
      ∃ x ∈ tags, ∃ ds, reMatchV (pyStrip x) = some ds ∧
        get_latest_version_tag tags = some (pyStrip x) ∧
        ∀ u ∈ tags, ∀ ds', reMatchV (pyStrip u) = some ds' →
          digitsToNat ds' ≤ digitsToNat ds) ∧
    get_latest_version_tag ["v9", "v10", "v2", "v1"] = some "v10" := by
  constructor
  · intro tags ⟨t, ht, hm⟩
    obtain ⟨t', ht'⟩ := get_latest_isSome ht hm
    obtain ⟨x, hx, ds, hds, hts, hmax⟩ := get_latest_eq_some ht'
    exact ⟨x, hx, ds, hds, by rw [ht', hts], hmax⟩
  · decide

/-- **C1, witness.** -/
theorem claim_C1_witness :
    ∃ x ∈ ["v9", "v10", "v2", "v1"], ∃ ds, reMatchV (pyStrip x) = some ds ∧
      get_latest_version_tag ["v9", "v10", "v2", "v1"] = some (pyStrip x) ∧
      ∀ u ∈ ["v9", "v10", "v2", "v1"], ∀ ds', reMatchV (pyStrip u) = some ds' →
        digitsToNat ds' ≤ digitsToNat ds :=
  claim_C1.1 ["v9", "v10", "v2", "v1"] ⟨"v9", by decide, by decide⟩

/-- **C2, counterexample.**  `" v1"` is a non-match of the anchored pattern,
but a tag list containing only it does not yield "no result":
`get_latest_version_tag` strips each tag before matching, so `[" v1"]`
yields `"v1"`. -/
theorem claim_C2_counterexample :
    reMatchV " v1" = none ∧ get_latest_version_tag [" v1"] = some "v1" := by
  constructor <;> decide

/-- **C2, amended.**  Each of the ten listed strings is a non-match of the
anchored pattern `^v(\d+)$` (no leading/trailing characters, no dots, no
suffixes, case-sensitive).  A tag list containing only strings whose
whitespace-stripped form also fails to match (the first eight) yields no
result from `get_latest_version_tag`; but because tags are stripped before
matching, `" v1"` and `"v1 "` each yield `"v1"`. -/
theorem claim_C2 :
    (∀ t ∈ ["v1.0", "v1.0.0", "v1-beta", "1.0", "release-1", "v", "v1a", "V1",
            " v1", "v1 "], reMatchV t = none) ∧
    get_latest_version_tag
      ["v1.0", "v1.0.0", "v1-beta", "1.0", "release-1", "v", "v1a", "V1"] = none ∧
    get_latest_version_tag [" v1"] = some "v1" ∧
    get_latest_version_tag ["v1 "] = some "v1" := by
  refine ⟨?_, by decide, by decide, by decide⟩
  decide

/-- **C8, counterexample.**  `["v2 "]` is a list in which no element matches
the anchored pattern, yet `get_latest_version_tag` does not return `None`:
the tag is stripped before matching. -/
theorem claim_C8_counterexample :
    (∀ t ∈ ["v2 "], reMatchV t = none) ∧
    get_latest_version_tag ["v2 "] = some "v2" := by
  constructor <;> decide

/-- **C8, amended.**  For every list of tag strings in which no tag's
whitespace-stripped form matches the anchored pattern — including the empty
list — the Version Selector returns `None`. -/
theorem claim_C8 :
    (∀ tags : List String, (∀ t ∈ tags, reMatchV (pyStrip t) = none) →
      get_latest_version_tag tags = none) ∧
    get_latest_version_tag [] = none := by
  constructor
  · intro tags hnone
    have hfm : tags.filterMap versionKey = [] := by
      rw [List.filterMap_eq_nil_iff]
      intro t ht
      simp [versionKey, hnone t ht]
    unfold get_latest_version_tag
    rw [if_pos hfm]
  · decide

/-- **C8, witness.** -/
theorem claim_C8_witness :
    get_latest_version_tag ["v1.0.0", "v2.0.0", "release-1"] = none :=
  claim_C8.1 ["v1.0.0", "v2.0.0", "release-1"] (by decide)

/-- **C10.**  Whenever `get_latest_version_tag` returns a tag, the returned
string is the whitespace-stripped form of some input element and matches
`^v(\d+)$` exactly, but it need not itself be an element of the input list:
input `["v1 "]` returns `"v1"`. -/
theorem claim_C10 :
    (∀ (tags : List String) (t : String), get_latest_version_tag tags = some t →
      ∃ x ∈ tags, t = pyStrip x ∧ (reMatchV t).isSome) ∧
    get_latest_version_tag ["v1 "] = some "v1" ∧
    ("v1" : String) ∉ (["v1 "] : List String) := by
  refine ⟨?_, by decide, by decide⟩
  intro tags t h
  obtain ⟨x, hx, ds, hds, hts, _⟩ := get_latest_eq_some h
  exact ⟨x, hx, hts, by rw [hts]; simp [hds]⟩

/-- **C10, witness.** -/
theorem claim_C10_witness :
    ∃ x ∈ (["v1 "] : List String), "v1" = pyStrip x ∧ (reMatchV "v1").isSome :=
  claim_C10.1 ["v1 "] "v1" (by decide)

/-- **C3, counterexample.**  The claim asserts that whenever some page's
response body is a `message` error object, `fetch_tags` returns the empty
sequence of tags.  But when a full first page precedes the error page, the
loop breaks at the error and returns the tags already accumulated: the
result is a 100-tag sequence, not the empty one. -/
theorem claim_C3_counterexample :
    fetch_tags "r" [TagPage.items (List.replicate 100 "t"), TagPage.errObj "limited"]
      = some (Except.ok ⟨List.replicate 100 "t", 2, ["  API error for r: limited"]⟩) ∧
    (List.replicate 100 "t" : List String) ≠ [] := by
  constructor <;> decide

/-- **C3, amended.**  When a page's response body is an object carrying a
`message` error indicator rather than a list, `fetch_tags` stops there,
emits one diagnostic naming the repository and the message, returns
normally (no exception is raised) with the tags accumulated from the pages
before the error — in particular the empty sequence when the error object
is the first page — and issues no further page requests.  The error page
may sit at any position: in a terminating run every page before it is a
full page (a short or empty page would already have stopped the loop), so
the statement quantifies over an arbitrary sequence of full pages followed
by the error object. -/
theorem claim_C3 :
    ∀ (nm msg : String) (fulls : List (List String)) (rest : List TagPage),
    (∀ p ∈ fulls, ¬ p.length < 100) →
    fetch_tags nm (fulls.map TagPage.items ++ TagPage.errObj msg :: rest)
      = some (Except.ok ⟨fulls.flatten, fulls.length + 1,
          ["  API error for " ++ nm ++ ": " ++ msg]⟩) := by
  intro nm msg fulls
  induction fulls with
  | nil => intro rest _; rfl
  | cons p fs ih =>
    intro rest hall
    have hp : ¬ p.length < 100 := hall p (List.mem_cons_self p fs)
    have hrec := ih rest (fun q hq => hall q (List.mem_cons_of_mem p hq))
    rw [List.map_cons, List.cons_append, fetch_tags_full_ok hp hrec]
    simp

/-- **C3, witness.**  One full page, then the error object: 100 tags kept,
2 requests, one diagnostic.  (`fulls = []` gives the first-page case.) -/
theorem claim_C3_witness :
    fetch_tags "some-repo"
        (([List.replicate 100 "x"] : List (List String)).map TagPage.items ++
          TagPage.errObj "API rate limit exceeded" :: [])
      = some (Except.ok ⟨([List.replicate 100 "x"] : List (List String)).flatten, 2,
          ["  API error for some-repo: API rate limit exceeded"]⟩) :=
  claim_C3 "some-repo" "API rate limit exceeded" [List.replicate 100 "x"] []
    (by decide)

/-- **C4.**  Pagination in `fetch_repos` and `fetch_tags`: pages of size 100
are requested at increasing page index and concatenated, and the loop stops
exactly when a page returns fewer than 100 items (the empty page included):
a full page followed by a short page yields the concatenation with exactly
2 page requests, and a short first page yields exactly 1 request, whatever
responses lie beyond the stopping point. -/
theorem claim_C4 :
    (∀ (a b : List Repo) (rest : List RepoPage), ¬ a.length < 100 → b.length < 100 →
      fetch_repos (RepoPage.items a :: RepoPage.items b :: rest)
        = some (Except.ok (a ++ b, 2))) ∧
    (∀ (a : List Repo) (rest : List RepoPage), a.length < 100 →
      fetch_repos (RepoPage.items a :: rest) = some (Except.ok (a, 1))) ∧
    (∀ (nm : String) (a b : List String) (rest : List TagPage),
        ¬ a.length < 100 → b.length < 100 →
      fetch_tags nm (TagPage.items a :: TagPage.items b :: rest)
        = some (Except.ok ⟨a ++ b, 2, []⟩)) ∧
    (∀ (nm : String) (a : List String) (rest : List TagPage), a.length < 100 →
      fetch_tags nm (TagPage.items a :: rest) = some (Except.ok ⟨a, 1, []⟩)) := by
  refine ⟨fun a b rest ha hb => ?_, fun a rest ha => fetch_repos_short rest ha,
    fun nm a b rest ha hb => ?_, fun nm a rest ha => fetch_tags_short rest ha⟩
  · rw [fetch_repos_full_ok ha (fetch_repos_short rest hb)]
  · rw [fetch_tags_full_ok ha (fetch_tags_short rest hb)]

/-- **C4, witness.**  The concrete response sequences of the spec: a page of
100 items followed by a page of 1 item gives 101 items in 2 requests; a
single 1-item page gives 1 request. -/
theorem claim_C4_witness :
    fetch_repos [RepoPage.items (List.replicate 100 ⟨"r"⟩), RepoPage.items [⟨"s"⟩]]
      = some (Except.ok (List.replicate 100 (⟨"r"⟩ : Repo) ++ [⟨"s"⟩], 2)) ∧
    fetch_repos [RepoPage.items [(⟨"s"⟩ : Repo)]] = some (Except.ok ([⟨"s"⟩], 1)) ∧
    fetch_tags "big-repo" [TagPage.items (List.replicate 100 "v"), TagPage.items ["w"]]
      = some (Except.ok ⟨List.replicate 100 "v" ++ ["w"], 2, []⟩) ∧
    fetch_tags "big-repo" [TagPage.items ["w"]] = some (Except.ok ⟨["w"], 1, []⟩) :=
  ⟨claim_C4.1 (List.replicate 100 ⟨"r"⟩) [⟨"s"⟩] [] (by decide) (by decide),
   claim_C4.2.1 [⟨"s"⟩] [] (by decide),
   claim_C4.2.2.1 "big-repo" (List.replicate 100 "v") ["w"] [] (by decide) (by decide),
   claim_C4.2.2.2 "big-repo" ["w"] [] (by decide)⟩

/-- **C6, counterexample.**  `fetch_repos` performs no deduplication: a page
listing the same repository twice is returned verbatim, so the result can
contain duplicate repository entries. -/
theorem claim_C6_counterexample :
    fetch_repos [RepoPage.items [⟨"a"⟩, ⟨"a"⟩]]
      = some (Except.ok ([⟨"a"⟩, ⟨"a"⟩], 1)) ∧
    ¬ ([⟨"a"⟩, ⟨"a"⟩] : List Repo).Nodup := by
  constructor <;> decide

/-- **C6, amended.**  For every page-response sequence, a completed
`fetch_repos` run returns exactly the concatenation of the page bodies it
consumed, in upstream order; no deduplication is performed, so the result
is free of duplicate entries exactly when the consumed pages jointly are. -/
theorem claim_C6 :
    ∀ (pages : List RepoPage) (repos : List Repo) (n : Nat),
    fetch_repos pages = some (Except.ok (repos, n)) →
    ∃ ps : List (List Repo), pages.take n = ps.map RepoPage.items ∧ repos = ps.flatten ∧
      (ps.flatten.Nodup ↔ repos.Nodup) := by
  intro pages repos n h
  obtain ⟨ps, h1, h2⟩ := fetch_repos_eq_flatten pages repos n h
  exact ⟨ps, h1, h2, by rw [h2]⟩

/-- **C6, witness.** -/
theorem claim_C6_witness :
    ∃ ps : List (List Repo),
      ([RepoPage.items [(⟨"a"⟩ : Repo)]] : List RepoPage).take 1 = ps.map RepoPage.items ∧
      ([⟨"a"⟩] : List Repo) = ps.flatten ∧ (ps.flatten.Nodup ↔ ([⟨"a"⟩] : List Repo).Nodup) :=
  claim_C6 [RepoPage.items [⟨"a"⟩]] [⟨"a"⟩] 1 (by decide)

/-- **C9.**  A transport-level or parse failure while listing the
organization's repositories (a raised exception inside `fetch_repos`)
propagates out of `main` as the same fatal error, so the run aborts and no
manifest lines are produced: `versions.txt` is not (re)written, since
`Except.ok` is the only outcome in which the file is written. -/
theorem claim_C9 :
    ∀ (repoPages : List RepoPage) (tagPages : String → List TagPage) (e : String),
    fetch_repos repoPages = some (Except.error e) →
    main repoPages tagPages = some (Except.error e) ∧
    ∀ lines : List String, main repoPages tagPages ≠ some (Except.ok lines) := by
  intro repoPages tagPages e h
  have hm : main repoPages tagPages = some (Except.error e) := by
    unfold main manifest_entries
    rw [h]
    rfl
  exact ⟨hm, fun lines hcontra => by rw [hm] at hcontra; simp at hcontra⟩

/-- **C9, witness.** -/
theorem claim_C9_witness :
    main [RepoPage.fail "curl: non-zero exit status"] (fun _ => [])
      = some (Except.error "curl: non-zero exit status") ∧
    ∀ lines : List String,
      main [RepoPage.fail "curl: non-zero exit status"] (fun _ => [])
        ≠ some (Except.ok lines) :=
  claim_C9 [RepoPage.fail "curl: non-zero exit status"] (fun _ => [])
    "curl: non-zero exit status" (by decide)

/-- **C5, counterexample.**  `fetch_repos` does not deduplicate, and `main`
produces one manifest entry per element of the (filtered) repository list;
when the upstream repository list names the same repository twice, the
manifest carries two entries for it, violating "at most one entry per
repository". -/
theorem claim_C5_counterexample :
    main [RepoPage.items [⟨"setup-a"⟩, ⟨"setup-a"⟩]] (fun _ => [TagPage.items ["v1"]])
      = some (Except.ok ["actions/setup-a@v1", "actions/setup-a@v1"]) ∧
    (["actions/setup-a@v1", "actions/setup-a@v1"] : List String).count
      "actions/setup-a@v1" = 2 := by
  constructor <;> decide

/-- **C5, amended.**  For every completed run, the manifest entries are
sorted case-insensitively by repository name, and — provided the filtered
repository list fetched upstream contains no duplicate names — the manifest
contains at most one entry per repository. -/
theorem claim_C5 :
    ∀ (repoPages : List RepoPage) (tagPages : String → List TagPage)
      (vs : List (String × String)),
    manifest_entries repoPages tagPages = some (Except.ok vs) →
    List.Sorted nameLE vs ∧
    ∀ (repos : List Repo) (n : Nat),
      fetch_repos repoPages = some (Except.ok (repos, n)) →
      ((repos.filter (fun r => pyStartswith r.name REPO_PREF)).map Repo.name).Nodup →
      ∀ nm : String, (vs.map Prod.fst).count nm ≤ 1 := by
  intro repoPages tagPages vs h
  unfold manifest_entries at h
  split at h
  · exact absurd h (by simp)
  · exact absurd h (by simp)
  · next repos₀ n₀ hrepos =>
    split at h
    · exact absurd h (by simp)
    · exact absurd h (by simp)
    · next versions hcoll =>
      simp only [Option.some.injEq, Except.ok.injEq] at h
      constructor
      · rw [← h]
        exact List.sorted_insertionSort nameLE versions
      · intro repos n hrepos' hnodup nm
        have hr : repos = repos₀ := by
          rw [hrepos] at hrepos'
          simp only [Option.some.injEq, Except.ok.injEq, Prod.mk.injEq] at hrepos'
          exact hrepos'.1.symm
        rw [hr] at hnodup
        have hperm : (vs.map Prod.fst).Perm (versions.map Prod.fst) := by
          rw [← h]
          exact (List.perm_insertionSort nameLE versions).map Prod.fst
        have hsub := collectVersions_sublist tagPages
          (repos₀.filter (fun r => pyStartswith r.name REPO_PREF)) versions hcoll
        calc (vs.map Prod.fst).count nm
            = (versions.map Prod.fst).count nm := hperm.count_eq nm
          _ ≤ ((repos₀.filter (fun r => pyStartswith r.name REPO_PREF)).map
                Repo.name).count nm := hsub.count_le nm
          _ ≤ 1 := List.nodup_iff_count_le_one.mp hnodup nm

/-- **C5, witness.** -/
theorem claim_C5_witness :
    List.Sorted nameLE [("setup-a", "v1")] ∧
    ∀ (repos : List Repo) (n : Nat),
      fetch_repos [RepoPage.items [⟨"setup-a"⟩]] = some (Except.ok (repos, n)) →
      ((repos.filter (fun r => pyStartswith r.name REPO_PREF)).map Repo.name).Nodup →
      ∀ nm : String,
        ((([("setup-a", "v1")] : List (String × String)).map Prod.fst).count nm) ≤ 1 :=
  claim_C5 [RepoPage.items [⟨"setup-a"⟩]] (fun _ => [TagPage.items ["v1"]])
    [("setup-a", "v1")] (by decide)

/-- **C7, counterexample.**  Ties can occur, in two ways.  Leading zeros:
`"v01"` and `"v1"` are distinct matching tags whose digit groups both parse
to 1.  Unicode digits: Python's `\d` matches any Unicode `Nd` character and
`int()` parses it, so `"v1"` and `"v١"` (Arabic-Indic one, `U+0661`) are
distinct matching tags — neither ending in a newline nor carrying a leading
zero — that also both parse to 1.  The digit sequence therefore does not
univocally determine the value, nor the value the tag. -/
theorem claim_C7_counterexample :
    (reMatchV "v01" = some ['0', '1'] ∧ reMatchV "v1" = some ['1'] ∧
      ("v01" : String) ≠ "v1" ∧ digitsToNat ['0', '1'] = digitsToNat ['1']) ∧
    (reMatchV "v١" = some ['١'] ∧ ("v١" : String) ≠ "v1" ∧
      "v١".toList.getLast? ≠ some '\n' ∧ canonicalDigits ['١'] ∧
      digitsToNat ['١'] = digitsToNat ['1']) := by
  refine ⟨⟨by decide, by decide, by decide, by decide⟩,
    by decide, by decide, by decide, Or.inr (by decide), by decide⟩

/-- **C7, amended.**  For two distinct tag strings that each match the
anchored pattern, the parsed integer values differ provided neither tag
ends in a newline (Python's `$` also matches before one trailing newline),
both captured digit groups consist of ASCII digits `0`–`9` (Python's `\d`
also accepts other Unicode `Nd` scripts, which can tie), and neither group
carries superfluous leading zeros; under those provisos the digit sequence
univocally determines the tag string, so no two such accepted tags compare
equal in the Version Selector. -/
theorem claim_C7 :
    ∀ (s1 s2 : String) (ds1 ds2 : List Char),
    reMatchV s1 = some ds1 → reMatchV s2 = some ds2 →
    s1.toList.getLast? ≠ some '\n' → s2.toList.getLast? ≠ some '\n' →
    ds1.all isDigitC = true → ds2.all isDigitC = true →
    canonicalDigits ds1 → canonicalDigits ds2 →
    s1 ≠ s2 → digitsToNat ds1 ≠ digitsToNat ds2 := by
  intro s1 s2 ds1 ds2 h1 h2 hn1 hn2 ha1 ha2 hc1 hc2 hne hv
  obtain ⟨hl1, hne1, _⟩ := reMatchV_eq_some hn1 h1
  obtain ⟨hl2, hne2, _⟩ := reMatchV_eq_some hn2 h2
  have hds : ds1 = ds2 := digitsToNat_inj ha1 ha2 hne1 hne2 hc1 hc2 hv
  apply hne
  apply String.ext
  show s1.toList = s2.toList
  rw [hl1, hl2, hds]

/-- **C7, witness.** -/
theorem claim_C7_witness : digitsToNat ['1'] ≠ digitsToNat ['2'] :=
  claim_C7 "v1" "v2" ['1'] ['2'] (by decide) (by decide) (by decide) (by decide)
    (by decide) (by decide) (Or.inr (by decide)) (Or.inr (by decide)) (by decide)

example : get_latest_version_tag ["v9", "v10", "v2", "v1"] = some "v10" := by decide

example : get_latest_version_tag ["v1.0.0", "v2.0.0", "release-1"] = none := by decide

example : get_latest_version_tag [] = none := by decide

example :
    main [RepoPage.items [⟨"setup-python"⟩, ⟨"setup-node"⟩, ⟨"checkout"⟩, ⟨"cache"⟩]]
      (fun r => if r = "setup-python" then [TagPage.items ["v1", "v2", "v5"]]
                else [TagPage.items ["v1", "v2", "v3", "v4"]])
      = some (Except.ok ["actions/setup-node@v4", "actions/setup-python@v5"]) := by decide

end FetchVersions
